import Mathlib

/-!
Verification development for the workflow-automation harness.

Shallow embedding of the core orchestration logic:
* the per-model circuit breaker and the multi-tier failover manager
  (`failover-manager.js`, reproduced in `TRIGGER_FIRST_RUN_FEATURE.md`);
* partial-success aggregation for parallel worker fan-outs;
* the `parallelImplementationNode` of both orchestrator variants,
  with an explicit git-history and filesystem model;
* the checkpoint/timeout session loop and checkpoint resume;
* the plan-confidence routing of both orchestrator variants;
* `ConflictResolver.deduplicateImports` (`edge-case-handler.js`).

JS `Map` objects keyed by model name / path are embedded as association
lists; `Date.now()` is an explicit `now : Nat` argument; the external
model invocation (an async callback in the source) is abstracted by a
boolean outcome telling whether the call would succeed.
-/

namespace AssocMap

/-- `m.get(k)` on a JS `Map` embedded as an association list. -/
def mget {α : Type} (m : List (String × α)) (k : String) : Option α :=
  m.lookup k

/-- `m.set(k, v)`: the new binding shadows (and drops) any previous one. -/
def mset {α : Type} (m : List (String × α)) (k : String) (v : α) :
    List (String × α) :=
  (k, v) :: m.filter (fun p => p.1 != k)

/-- `m.delete(k)`. -/
def mdel {α : Type} (m : List (String × α)) (k : String) :
    List (String × α) :=
  m.filter (fun p => p.1 != k)

/-- `m.has(k)`. -/
def mhas {α : Type} (m : List (String × α)) (k : String) : Bool :=
  (mget m k).isSome

end AssocMap

open AssocMap

namespace FailoverManager

/-- `CircuitBreaker` state: per-model failure timestamps, per-model
`openedAt` timestamps, and the (never-written) `halfOpenAttempts` map,
together with the three configuration options of the constructor. -/
structure CircuitBreaker where
  failureThreshold : Nat
  resetTimeout : Nat
  monitoringPeriod : Nat
  failures : List (String × List Nat)
  openCircuits : List (String × Nat)
  halfOpenAttempts : List (String × Nat)
deriving DecidableEq

/-- `CircuitBreaker.isOpen(model)`: `this.openCircuits.has(model)`. -/
def CircuitBreaker.isOpen (cb : CircuitBreaker) (model : String) : Bool :=
  mhas cb.openCircuits model

/-- `CircuitBreaker.open(model)`: records `openedAt = Date.now()` but only
when the circuit is not already open (`if (!this.isOpen(model))`). -/
def CircuitBreaker.openModel (cb : CircuitBreaker) (model : String) (now : Nat) :
    CircuitBreaker :=
  if cb.isOpen model then cb
  else { cb with openCircuits := mset cb.openCircuits model now }

/-- `CircuitBreaker.close(model)`: deletes the model from all three maps. -/
def CircuitBreaker.closeModel (cb : CircuitBreaker) (model : String) :
    CircuitBreaker :=
  { cb with
    openCircuits := mdel cb.openCircuits model
    failures := mdel cb.failures model
    halfOpenAttempts := mdel cb.halfOpenAttempts model }

/-- `CircuitBreaker.recordFailure(model)`: appends the current timestamp,
drops timestamps outside `monitoringPeriod`, and opens the circuit once
`filtered.length >= failureThreshold`. -/
def CircuitBreaker.recordFailure (cb : CircuitBreaker) (model : String)
    (now : Nat) : CircuitBreaker :=
  let fs := ((mget cb.failures model).getD []) ++ [now]
  let filtered := fs.filter (fun t => now - t < cb.monitoringPeriod)
  let cb' := { cb with failures := mset cb.failures model filtered }
  if cb'.failureThreshold ≤ filtered.length then cb'.openModel model now else cb'

/-- `CircuitBreaker.recordSuccess(model)`: clears the failure history. -/
def CircuitBreaker.recordSuccess (cb : CircuitBreaker) (model : String) :
    CircuitBreaker :=
  { cb with
    failures := mdel cb.failures model
    halfOpenAttempts := mdel cb.halfOpenAttempts model }

/-- `CircuitBreaker.getStatus(model)`: `"OPEN"` whenever the model is in
`openCircuits` (irrespective of elapsed time), otherwise `"MONITORING"`
(the source appends the failure count to the string) or `"CLOSED"`.
Callers only ever compare the result against `"OPEN"`. -/
def CircuitBreaker.getStatus (cb : CircuitBreaker) (model : String) : String :=
  if cb.isOpen model then "OPEN"
  else if 0 < ((mget cb.failures model).getD []).length then "MONITORING"
  else "CLOSED"

/-- Outcome of one `CircuitBreaker.execute(model, fn)` call:
`rejected` is the throw of the `Circuit breaker OPEN` error (before `fn`),
`succeeded`/`failed` are the result/rethrow after `fn` ran. -/
inductive ExecOutcome
  | rejected
  | succeeded
  | failed
deriving DecidableEq

/-- Result of `CircuitBreaker.execute`: the outcome, the updated breaker,
and whether the wrapped `fn` (the underlying model call) was invoked. -/
structure ExecResult where
  outcome : ExecOutcome
  cb : CircuitBreaker
  invoked : Bool
deriving DecidableEq

/-- `CircuitBreaker.execute(model, fn)` with the call's success abstracted
as `fnOk`.  Open circuit: reject while `now - openedAt < resetTimeout`,
otherwise run the half-open probe (`attemptHalfOpen`): success closes the
breaker, failure calls `open(model)` (a no-op while already open) and
rethrows.  Closed circuit: run `fn`, recording success or failure. -/
def CircuitBreaker.execute (cb : CircuitBreaker) (model : String) (now : Nat)
    (fnOk : Bool) : ExecResult :=
  match mget cb.openCircuits model with
  | some openedAt =>
    if now - openedAt < cb.resetTimeout then
      { outcome := .rejected, cb := cb, invoked := false }
    else if fnOk then
      { outcome := .succeeded, cb := cb.closeModel model, invoked := true }
    else
      { outcome := .failed, cb := cb.openModel model now, invoked := true }
  | none =>
    if fnOk then
      { outcome := .succeeded, cb := cb.recordSuccess model, invoked := true }
    else
      { outcome := .failed, cb := cb.recordFailure model now, invoked := true }

/-- One entry of `MODEL_HIERARCHY[agentType]`. -/
structure Candidate where
  model : String
  priority : Nat
deriving DecidableEq

/-- The value returned by `executeWithFailover`: `fallback` embeds the
source's `fallback: priority > 1`, `errors` the accumulated
`{model, priority}` failure records. -/
structure FailoverResult where
  success : Bool
  model : Option String
  fallback : Bool
  degraded : Bool
  errors : List (String × Nat)
deriving DecidableEq

/-- A full run of `executeWithFailover`: result, final breaker state, and
the ordered list of models whose underlying call was actually invoked. -/
structure FailoverRun where
  result : FailoverResult
  cb : CircuitBreaker
  invocations : List String
deriving DecidableEq

/-- The candidate loop of `executeWithFailover`.  A candidate whose
`getStatus` is `"OPEN"` is skipped (`continue`): no invocation, no error
entry, no backoff.  Otherwise the breaker-wrapped call runs; on success the
loop returns immediately; on failure the error is recorded, a fatal error
(`isFatalError`) breaks out of the loop, a non-fatal one backs off and
moves to the next candidate. -/
def runCandidates (now : Nat) (fnOk fatal : String → Bool) :
    CircuitBreaker → List Candidate → List (String × Nat) → List String →
    FailoverRun
  | cb, [], errors, invoked =>
    { result := { success := false, model := none, fallback := false,
                  degraded := false, errors := errors },
      cb := cb, invocations := invoked }
  | cb, c :: rest, errors, invoked =>
    if cb.getStatus c.model == "OPEN" then
      runCandidates now fnOk fatal cb rest errors invoked
    else
      let r := cb.execute c.model now (fnOk c.model)
      match r.outcome with
      | .succeeded =>
        { result := { success := true, model := some c.model,
                      fallback := decide (1 < c.priority), degraded := false,
                      errors := errors },
          cb := r.cb, invocations := invoked ++ [c.model] }
      | _ =>
        let errors' := errors ++ [(c.model, c.priority)]
        if fatal c.model then
          { result := { success := false, model := none, fallback := false,
                        degraded := false, errors := errors' },
            cb := r.cb, invocations := invoked ++ [c.model] }
        else
          runCandidates now fnOk fatal r.cb rest errors' (invoked ++ [c.model])

/-- `attemptGracefulDegradation(agentType, ...)`: the deterministic
fallback results (`degradedPlanner` / `degradedCoder` / `degradedReviewer`),
identified here by their `model` tags; `null` for unknown agent types. -/
def attemptGracefulDegradation (agentType : String) : Option FailoverResult :=
  if agentType == "planner" then
    some { success := true, model := some "degraded-template",
           fallback := false, degraded := true, errors := [] }
  else if agentType == "coder" then
    some { success := true, model := some "degraded-manual",
           fallback := false, degraded := true, errors := [] }
  else if agentType == "reviewer" then
    some { success := true, model := some "degraded-static",
           fallback := false, degraded := true, errors := [] }
  else none

/-- `FailoverManager.executeWithFailover`: run the candidate loop; if every
candidate failed (or was skipped) and graceful degradation is enabled,
substitute the degraded result when one exists for the agent type. -/
def executeWithFailover (gracefulDegradation : Bool) (agentType : String)
    (cb : CircuitBreaker) (now : Nat) (fnOk fatal : String → Bool)
    (hierarchy : List Candidate) : FailoverRun :=
  let run := runCandidates now fnOk fatal cb hierarchy [] []
  if run.result.success then run
  else if gracefulDegradation then
    match attemptGracefulDegradation agentType with
    | some r => { run with result := r }
    | none => run
  else run

/-- A fresh breaker with the `FailoverManager` constructor defaults
(`failureThreshold: 3`, `resetTimeout: 60000`, `monitoringPeriod: 300000`). -/
def freshBreaker : CircuitBreaker :=
  { failureThreshold := 3, resetTimeout := 60000, monitoringPeriod := 300000,
    failures := [], openCircuits := [], halfOpenAttempts := [] }

end FailoverManager

namespace Aggregator

/-- One worker's result in a milestone fan-out: the `success` flag of the
`executeWithFailover` return value and the `result.files` payload
(path/content pairs) the worker produced. -/
structure AgentResult where
  success : Bool
  files : List (String × String)
deriving DecidableEq

/-- The value returned by `FailoverManager.handlePartialSuccess`:
`isPartial` embeds the source's `partial: true` field. -/
structure PartialDecision where
  success : Bool
  results : List AgentResult
  isPartial : Bool
  failedCount : Nat
deriving DecidableEq

/-- `FailoverManager.handlePartialSuccess(results)`: refuse when the
`partialSuccess` option is off or no worker succeeded; otherwise compute
`successRate = succeeded.length / results.length` and accept
(`partial: true`) iff `successRate >= 0.5`. -/
def handlePartialSuccess (partialSuccessEnabled : Bool)
    (results : List AgentResult) : PartialDecision :=
  if !partialSuccessEnabled then
    { success := false, results := [], isPartial := false, failedCount := 0 }
  else
    let succeeded := results.filter (fun r => r.success)
    let failed := results.filter (fun r => !r.success)
    if succeeded.length = 0 then
      { success := false, results := [], isPartial := false,
        failedCount := failed.length }
    else
      let successRate : ℚ := (succeeded.length : ℚ) / (results.length : ℚ)
      if (0.5 : ℚ) ≤ successRate then
        { success := true, results := succeeded, isPartial := true,
          failedCount := failed.length }
      else
        { success := false, results := [], isPartial := false,
          failedCount := failed.length }

/-- Milestone-level outcome of the fan-out decision in the failover
orchestrator's `parallelImplementationNode`: whether the milestone was
accepted, which files would be applied (only the successful workers'),
the `partialSuccess` flag recorded on the milestone, and whether the node
threw (rejection), which routes into the rollback path. -/
structure MilestoneOutcome where
  accepted : Bool
  appliedFiles : List (String × String)
  partialSuccess : Bool
  shouldRollback : Bool
deriving DecidableEq

/-- The acceptance logic of the failover variant's
`parallelImplementationNode`: with any failed worker it consults
`handlePartialSuccess` and throws (rejection) when that refuses; an
accepted milestone applies exactly the successful workers' files and
records `partialSuccess = failCount > 0`. -/
def aggregateMilestone (partialSuccessEnabled : Bool)
    (results : List AgentResult) : MilestoneOutcome :=
  let failCount := (results.filter (fun r => !r.success)).length
  if 0 < failCount then
    let pd := handlePartialSuccess partialSuccessEnabled results
    if !pd.success then
      { accepted := false, appliedFiles := [], partialSuccess := false,
        shouldRollback := true }
    else
      { accepted := true,
        appliedFiles := (results.filter (fun r => r.success)).flatMap
          (fun r => r.files),
        partialSuccess := true, shouldRollback := false }
  else
    { accepted := true,
      appliedFiles := (results.filter (fun r => r.success)).flatMap
        (fun r => r.files),
      partialSuccess := false, shouldRollback := false }

end Aggregator

namespace GitModel

/-- The repository history as seen by `GitUtils`: the list of commit
hashes, most recent first.  `getLastCommit` is `git rev-parse HEAD`. -/
abbrev GitHistory := List String

/-- `GitUtils.getLastCommit()`. -/
def getLastCommit (git : GitHistory) : Option String := git.head?

/-- `GitUtils.commitAll(message)`: creates one new commit on top. -/
def commitAll (git : GitHistory) (newRev : String) : GitHistory := newRev :: git

/-- `GitUtils.rollback(commitHash)`: `git reset --hard commitHash` — the
history becomes the suffix whose head is the given revision. -/
def rollbackTo (git : GitHistory) (rev : String) : GitHistory :=
  git.dropWhile (fun c => c != rev)

end GitModel

namespace ImplNode

open Aggregator GitModel

/-- The session fields read and written by the failover variant's
`parallelImplementationNode`. -/
structure ImplState where
  rollbackPoint : Option String
  retryCount : Nat
  maxRetries : Nat
  currentMilestone : Nat
  totalMilestones : Nat
  phase : String
deriving DecidableEq

/-- The failover variant's `parallelImplementationNode`, with the workers'
results given and the fresh commit hash for `commitAll` as a parameter.
The `try` block captures `rollbackPoint = git.getLastCommit()` into a
local `const`; on acceptance the node commits and returns that local value
into the state.  On rejection (the `throw` when `handlePartialSuccess`
refuses) control is in the `catch` block, where the local `const` is out
of scope: the code rolls back to the *previous* state's
`state.rollbackPoint` when that is non-null, and increments the retry
count. -/
def parallelImplementationNode (st : ImplState) (git : GitHistory)
    (results : List AgentResult) (newRev : String) : ImplState × GitHistory :=
  let rollbackPoint := getLastCommit git
  let agg := aggregateMilestone true results
  if agg.accepted then
    let git' := commitAll git newRev
    ({ st with
        rollbackPoint := rollbackPoint
        currentMilestone := st.currentMilestone + 1
        phase := if st.totalMilestones ≤ st.currentMilestone + 1 then
          "reviewing" else "implementing" },
     git')
  else
    let git' := match st.rollbackPoint with
      | some r => rollbackTo git r
      | none => git
    ({ st with
        retryCount := st.retryCount + 1
        phase := if st.maxRetries ≤ st.retryCount + 1 then
          "failed" else "implementing" },
     git')

end ImplNode

namespace LGNode

open Aggregator

/-- The working tree as a path-to-content map. -/
abbrev FileSystem := List (String × String)

/-- `content.includes(pattern)`: some suffix of the content starts with
the pattern. -/
def includesStr (content pat : String) : Bool :=
  content.toList.tails.any (fun t => List.isPrefixOf pat.toList t)

/-- The marker test of the langgraph orchestrator's `detectConflicts`. -/
def hasConflictMarkers (content : String) : Bool :=
  includesStr content "<<<<<<< HEAD" ||
  includesStr content "=======" ||
  includesStr content ">>>>>>> "

/-- `detectConflicts(files)`: reads each file from the filesystem and
keeps the paths whose content carries conflict markers (a missing file is
no conflict). -/
def detectConflicts (fs : FileSystem) (files : List String) : List String :=
  files.filter (fun f =>
    match AssocMap.mget fs f with
    | some content => hasConflictMarkers content
    | none => false)

/-- The file writes of the apply loop: each successful worker's files are
written to the filesystem in order (`fs.writeFile(filePath, file.content)`). -/
def applyWrites (fs : FileSystem) (results : List AgentResult) : FileSystem :=
  (results.flatMap (fun r => r.files)).foldl
    (fun acc pc => AssocMap.mset acc pc.1 pc.2) fs

/-- The paths collected into `modifiedFiles` by the apply loop. -/
def writePaths (results : List AgentResult) : List String :=
  (results.flatMap (fun r => r.files)).map (fun pc => pc.1)

/-- Outcome of the langgraph `parallelImplementationNode` after the
fan-out returned: the post-node filesystem, whether the milestone commit
ran, the detected conflicts, and the routing fields. -/
structure NodeOutcome where
  fs : FileSystem
  committed : Bool
  conflicts : List String
  phase : String
  needsUserInput : Bool
deriving DecidableEq

/-- The langgraph orchestrator's `parallelImplementationNode` from the
point where every worker result is in.  Any failed worker throws
(`N agents failed`) before anything is applied.  Otherwise the node first
writes every produced file to the filesystem, then runs `detectConflicts`
over the just-written paths; conflicts route to `blocked` with
`needsUserInput` and no commit, and only a conflict-free milestone is
committed. -/
def parallelImplementationNodeLG (fs : FileSystem) (prevPhase : String)
    (results : List AgentResult) : NodeOutcome :=
  if results.any (fun r => !r.success) then
    { fs := fs, committed := false, conflicts := [], phase := prevPhase,
      needsUserInput := false }
  else
    let fs' := applyWrites fs results
    let conflicts := detectConflicts fs' (writePaths results)
    if conflicts.isEmpty then
      { fs := fs', committed := true, conflicts := [], phase := "implementing",
        needsUserInput := false }
    else
      { fs := fs', committed := false, conflicts := conflicts,
        phase := "blocked", needsUserInput := true }

end LGNode

namespace SessionLoop

/-- The session record streamed through the failover orchestrator's main
loop (the subset of the state annotations the loop itself touches, plus
representative payload fields carried into every checkpoint). -/
structure Session where
  sessionId : String
  ideaId : String
  phase : String
  status : String
  timeoutAt : Nat
  retryCount : Nat
  currentMilestone : Nat
  progress : Nat
deriving DecidableEq

/-- The state written by `gracefulShutdown`'s checkpoint:
`{...currentState, phase: 'interrupted', status: 'interrupted', ...}` —
every other field of the in-memory session is carried over unchanged. -/
def interruptedOf (s : Session) : Session :=
  { s with phase := "interrupted", status := "interrupted" }

/-- Observable events of the main loop: a phase handler returning (with
the merged post-state), `saveCheckpoint(finalState)`, and the
graceful-shutdown checkpoint. -/
inductive LoopEvent
  | ranPhase (post : Session)
  | savedCheckpoint (cp : Session)
  | shutdownCheckpoint (cp : Session)
deriving DecidableEq

/-- The `for await (const step of graph.stream(...))` loop of the failover
orchestrator's `main`: each step merges the node's output into the state,
then `saveCheckpoint(finalState)` runs unconditionally, then the deadline
check `Date.now() > finalState.timeoutAt` either breaks into
`gracefulShutdown` (which checkpoints the interrupted state) or lets the
next phase start.  A step is a state update together with the clock value
observed at the post-step deadline check. -/
def runLoop : Session → List ((Session → Session) × Nat) → List LoopEvent
  | _, [] => []
  | s, (upd, now) :: rest =>
    let s' := upd s
    .ranPhase s' :: .savedCheckpoint s' ::
      (if s'.timeoutAt < now then [.shutdownCheckpoint (interruptedOf s')]
       else runLoop s' rest)

/-- The checkpoint discipline the loop is claimed to obey: the event trace
is a sequence of (phase ran, same post-state checkpointed) pairs, with at
most one trailing shutdown checkpoint whose phase is `interrupted` and
after which nothing runs. -/
inductive GoodTrace : List LoopEvent → Prop
  | nil : GoodTrace []
  | shutdown (c : Session) (h : c.phase = "interrupted") :
      GoodTrace [.shutdownCheckpoint c]
  | step (p : Session) (rest : List LoopEvent) (h : GoodTrace rest) :
      GoodTrace (.ranPhase p :: .savedCheckpoint p :: rest)

end SessionLoop

namespace ResumeModel

/-- A produced plan: its milestone names and the reported confidence. -/
structure Plan where
  milestones : List String
  confidence : ℚ
deriving DecidableEq

/-- The langgraph orchestrator's session state (the annotation fields the
load/plan/route logic touches). -/
structure LGSession where
  sessionId : Option String
  ideaId : Option String
  phase : String
  status : String
  plan : Option Plan
  planApproved : Bool
  currentMilestone : Nat
  totalMilestones : Nat
  retryCount : Nat
  maxRetries : Nat
  needsUserInput : Bool
  timeoutAt : Nat
  progress : Nat
  errors : List String
  modifiedFiles : List String
deriving DecidableEq

/-- `loadCheckpoint(sessionId)`: look the serialized session up in the
checkpoint store (`state/checkpoints/<sessionId>.json`). -/
def loadCheckpoint (store : List (String × LGSession)) (sessionId : String) :
    Option LGSession :=
  AssocMap.mget store sessionId

/-- `loadStateNode(state)` with the checkpoint store, the `RESUME` flag,
the clock, and the configured budget (`TIMEOUT_MS`) explicit.  A found
checkpoint under `RESUME=true` is spread into the state with
`retryCount: 0` and `timeoutAt: Date.now() + TIMEOUT_MS`; otherwise a new
session starts in `initializing`. -/
def loadStateNode (store : List (String × LGSession)) (resume : Bool)
    (now timeoutBudget : Nat) (state : LGSession) : LGSession :=
  let sessionId := state.sessionId.getD ("session-" ++ toString now)
  match loadCheckpoint store sessionId, resume with
  | some cp, true =>
    { cp with
        sessionId := some sessionId
        retryCount := 0
        timeoutAt := now + timeoutBudget }
  | _, _ =>
    { state with
        sessionId := some sessionId
        phase := "initializing"
        timeoutAt := now + timeoutBudget
        progress := 0 }

/-- `routeAfterLoad(state)`. -/
def routeAfterLoad (state : LGSession) : String :=
  if state.phase == "completed" then "end"
  else if state.phase == "blocked" then "human_clarification"
  else if state.ideaId.isNone then "analyze_idea"
  else state.phase

/-- The state update returned by the langgraph `planNode` when the model
call produced a plan with at least one milestone: the confidence gate at
`0.8` decides `planApproved`, the next `phase`, and `needsUserInput`. -/
def planNodeUpdate (state : LGSession) (plan : Plan) : LGSession :=
  { state with
      plan := some plan
      planApproved := decide ((0.8 : ℚ) ≤ plan.confidence)
      phase := if (0.8 : ℚ) ≤ plan.confidence then "implementing"
        else "planning"
      needsUserInput := decide (plan.confidence < (0.8 : ℚ))
      totalMilestones := plan.milestones.length }

/-- `routeAfterPlan(state)`. -/
def routeAfterPlan (state : LGSession) : String :=
  if state.retryCount < state.maxRetries && state.plan.isNone then "plan"
  else if state.needsUserInput || !state.planApproved then "human_clarification"
  else "parallel_implementation"

/-- The state update of `humanClarificationNode` (issue creation aside):
the session becomes `blocked` / `waiting_user`. -/
def humanClarificationUpdate (state : LGSession) : LGSession :=
  { state with phase := "blocked", status := "waiting_user" }

/-- The failover variant's `planNode` state update for a produced plan:
its confidence gate sits at `0.5` and only sets `phase`/`needsUserInput`
(there is no `planApproved` in that variant). -/
def planNodeUpdate005 (state : LGSession) (plan : Plan) : LGSession :=
  { state with
      plan := some plan
      phase := if (0.5 : ℚ) ≤ plan.confidence then "implementing"
        else "planning"
      needsUserInput := decide (plan.confidence < (0.5 : ℚ))
      totalMilestones := plan.milestones.length }

/-- The failover variant's graph wiring (`createAutonomousDevGraph` in the
failover orchestrator): a linear chain of unconditional edges with no
conditional routing at all. -/
def edges005 : List (String × String) :=
  [("START", "analyze_idea"),
   ("analyze_idea", "plan"),
   ("plan", "parallel_implementation"),
   ("parallel_implementation", "review_code"),
   ("review_code", "test"),
   ("test", "END")]

/-- The node executed after `node` in the failover variant's graph. -/
def nextNode005 (node : String) : Option String :=
  AssocMap.mget edges005 node

end ResumeModel

namespace Dedup

/-- Whitespace as stripped by JS `String.prototype.trim` (the characters
that can occur inside one line of a file split on newlines). -/
def wsChar (c : Char) : Bool :=
  c == ' ' || c == '\t' || c == '\r'

/-- `line.trim()` on a single line, over an explicit character list. -/
def trimChars (l : List Char) : List Char :=
  ((l.dropWhile wsChar).reverse.dropWhile wsChar).reverse

/-- The dedup condition of `ConflictResolver.deduplicateImports`:
`line.trim().startsWith('import ')`. -/
def isImportLine (l : List Char) : Bool :=
  List.isPrefixOf "import ".toList (trimChars l)

/-- `content.split('\n')` over an explicit character list. -/
def splitNL : List Char → List (List Char)
  | [] => [[]]
  | c :: rest =>
    if c = '\n' then [] :: splitNL rest
    else
      match splitNL rest with
      | [] => [[c]]
      | l :: ls => (c :: l) :: ls

/-- `deduplicated.join('\n')` over explicit character lists. -/
def joinNL : List (List Char) → List Char
  | [] => []
  | [l] => l
  | l :: rest => l ++ '\n' :: joinNL rest

/-- The line loop of `deduplicateImports`: a line whose trimmed form
starts with `import ` is kept only when no identical line was kept
before (the `imports` set holds the full, untrimmed line); every other
line is kept unconditionally. -/
def dedupeGo (seen : List (List Char)) : List (List Char) → List (List Char)
  | [] => []
  | line :: rest =>
    if isImportLine line then
      if seen.contains line then dedupeGo seen rest
      else line :: dedupeGo (line :: seen) rest
    else line :: dedupeGo seen rest

/-- `ConflictResolver.deduplicateImports` on a file content. -/
def deduplicateImports (content : List Char) : List Char :=
  joinNL (dedupeGo [] (splitNL content))

end Dedup

/-! Concrete inputs used by the witness theorems below. -/

/-- Boundary fan-out used to witness the partial-acceptance theorem:
four workers, two successes — the success rate sits exactly at `0.5`. -/
def boundaryFanout : List Aggregator.AgentResult :=
  [{ success := true, files := [("a.js", "A")] },
   { success := true, files := [("b.js", "B")] },
   { success := false, files := [] },
   { success := false, files := [] }]

/-- An all-successful single-worker fan-out whose output carries a
merge-conflict marker. -/
def markerWorker : List Aggregator.AgentResult :=
  [{ success := true, files := [("w.js", "p\n<<<<<<< HEAD\nq")] }]

/-- A session used to witness the loop theorem. -/
def loopWitnessSession : SessionLoop.Session :=
  { sessionId := "session-1", ideaId := "007-idea", phase := "planning",
    status := "pending", timeoutAt := 100, retryCount := 0,
    currentMilestone := 0, progress := 10 }

/-- The state update of the witnessed loop step. -/
def loopWitnessUpd (s : SessionLoop.Session) : SessionLoop.Session :=
  { s with phase := "implementing", progress := 40 }

/-- The initial session fed to the load node in the witnesses. -/
def baseSession : ResumeModel.LGSession :=
  { sessionId := some "session-42", ideaId := none, phase := "initializing",
    status := "pending", plan := none, planApproved := false,
    currentMilestone := 0, totalMilestones := 0, retryCount := 0,
    maxRetries := 3, needsUserInput := false, timeoutAt := 0, progress := 0,
    errors := [], modifiedFiles := [] }

/-- A persisted checkpoint mid-implementation, used to witness resume. -/
def resumeCp : ResumeModel.LGSession :=
  { sessionId := some "session-42", ideaId := some "007-idea",
    phase := "implementing", status := "pending", plan := none,
    planApproved := true, currentMilestone := 1, totalMilestones := 3,
    retryCount := 2, maxRetries := 3, needsUserInput := false,
    timeoutAt := 777, progress := 40, errors := ["e1"],
    modifiedFiles := ["a.js"] }

/-- A produced plan whose confidence sits below every configured gate. -/
def lowPlan : ResumeModel.Plan :=
  { milestones := ["m1"], confidence := 3/10 }

/-- A produced plan whose confidence clears the langgraph `0.8` gate. -/
def highPlan : ResumeModel.Plan :=
  { milestones := ["m1", "m2"], confidence := 9/10 }

/-- Claim C1: the opening and rejection behaviour of the circuit breaker
holds (threshold reached opens the breaker; a call before `resetTimeout`
is rejected without invoking the model; after `resetTimeout` exactly one
half-open probe runs; a successful probe closes the breaker and clears
the failure history), but the final conjunct fails: a failed probe calls
`open(model)` which is a no-op while the circuit is still open, so
`openedAt` is never refreshed and the very next call — well inside the
claimed fresh cooldown — is invoked as another probe instead of being
rejected. -/
theorem circuitBreaker_probe_failure_not_recooled :
    let cb3 : FailoverManager.CircuitBreaker :=
      ((FailoverManager.freshBreaker.recordFailure "m" 0).recordFailure
        "m" 1).recordFailure "m" 2
    cb3.isOpen "m" = true ∧
    AssocMap.mget cb3.openCircuits "m" = some 2 ∧
    (cb3.execute "m" 100 true).outcome = .rejected ∧
    (cb3.execute "m" 100 true).invoked = false ∧
    ((cb3.execute "m" 60002 true).cb.isOpen "m" = false ∧
      AssocMap.mget (cb3.execute "m" 60002 true).cb.failures "m" = none) ∧
    ((cb3.execute "m" 60002 false).outcome = .failed ∧
      (cb3.execute "m" 60002 false).invoked = true ∧
      AssocMap.mget (cb3.execute "m" 60002 false).cb.openCircuits "m" =
        some 2) ∧
    (60010 - 60002 < 60000 ∧
      ((cb3.execute "m" 60002 false).cb.execute "m" 60010 true).invoked =
        true ∧
      ((cb3.execute "m" 60002 false).cb.execute "m" 60010 true).outcome ≠
        .rejected) := by
  decide

/-- Claim C2: at `now = 60000` with the circuit for `A` opened at `0`, the
breaker itself would already allow the half-open probe (`resetTimeout`
elapsed), yet `executeWithFailover` skips `A` anyway, because its guard
compares `getStatus` — which reports `OPEN` from `openCircuits` alone,
ignoring elapsed time — so only `B` is invoked and no error is recorded
for `A`.  The claimed once-cooldown-elapsed probe never happens. -/
theorem executeWithFailover_skips_open_after_cooldown :
    let cbA : FailoverManager.CircuitBreaker :=
      { FailoverManager.freshBreaker with openCircuits := [("A", 0)] }
    let run := FailoverManager.executeWithFailover true "coder" cbA 60000
      (fun m => m == "B") (fun _ => false)
      [⟨"A", 1⟩, ⟨"B", 2⟩]
    (cbA.execute "A" 60000 true).invoked = true ∧
    run.invocations = ["B"] ∧
    run.result.errors = [] ∧
    run.result.model = some "B" ∧
    run.result.success = true := by
  decide

/-- Claim C5: with candidates `A(1), B(2), C(3)` where `A` and `B` fail
with non-fatal errors and `C` succeeds, the failover loop invokes `A` and
`B` exactly once each in ascending priority order, stops at the first
success, and returns model `C` with `fallback = true`; when the
priority-1 candidate succeeds, nothing else is invoked and
`fallback = false`. -/
theorem executeWithFailover_ordering :
    let run : FailoverManager.FailoverRun :=
      FailoverManager.executeWithFailover true "coder"
      FailoverManager.freshBreaker 1000
      (fun m => m == "C") (fun _ => false)
      [⟨"A", 1⟩, ⟨"B", 2⟩, ⟨"C", 3⟩]
    run.invocations = ["A", "B", "C"] ∧
    run.invocations.count "A" = 1 ∧
    run.invocations.count "B" = 1 ∧
    run.result.success = true ∧
    run.result.model = some "C" ∧
    run.result.fallback = true ∧
    run.result.degraded = false ∧
    run.result.errors = [("A", 1), ("B", 2)] ∧
    (let run1 := FailoverManager.executeWithFailover true "coder"
        FailoverManager.freshBreaker 1000
        (fun _ => true) (fun _ => false)
        [⟨"A", 1⟩, ⟨"B", 2⟩, ⟨"C", 3⟩]
     run1.invocations = ["A"] ∧ run1.result.model = some "A" ∧
       run1.result.fallback = false) := by
  decide

/-- Claim C4: the rollback after a rejected fan-out targets the stale
`state.rollbackPoint` (captured before the *previous* milestone), not the
revision captured immediately before the rejected milestone.  Milestone 1
commits `c1` on top of `c0`; milestone 2's fan-out is rejected, and the
code resets the tree to `c0`, erasing the committed milestone-1 work
(the pre-milestone-2 revision is `c1`).  A rejected *first* milestone
performs no rollback at all, since `state.rollbackPoint` is still null. -/
theorem rollback_targets_stale_revision :
    let st0 : ImplNode.ImplState :=
      { rollbackPoint := none, retryCount := 0, maxRetries := 3,
        currentMilestone := 0, totalMilestones := 2, phase := "implementing" }
    let okRes : List Aggregator.AgentResult := [{ success := true, files := [] }]
    let failRes : List Aggregator.AgentResult :=
      [{ success := false, files := [] }]
    let step1 := ImplNode.parallelImplementationNode st0 ["c0"] okRes "c1"
    let step2 := ImplNode.parallelImplementationNode step1.1 step1.2 failRes "c2"
    step1.2 = ["c1", "c0"] ∧
    step1.1.rollbackPoint = some "c0" ∧
    GitModel.getLastCommit step1.2 = some "c1" ∧
    step2.2 = ["c0"] ∧
    GitModel.getLastCommit step2.2 ≠ some "c1" ∧
    (ImplNode.parallelImplementationNode st0 ["c0"] failRes "c1").2 = ["c0"]
    := by
  decide

/-- Claim C6 counterexample: a successful worker output carrying a
merge-conflict marker is written to the filesystem *before* the conflict
scan runs — the node ends blocked with the conflict detected and no
commit, but the conflicted file has already been applied, contradicting
the claim that the scan precedes any file application. -/
theorem conflict_scan_after_apply_counterexample :
    let res : List Aggregator.AgentResult :=
      [{ success := true, files := [("a.js", "x\n<<<<<<< HEAD\ny")] }]
    let out := LGNode.parallelImplementationNodeLG [] "implementing" res
    AssocMap.mget out.fs "a.js" = some "x\n<<<<<<< HEAD\ny" ∧
    out.conflicts = ["a.js"] ∧
    out.committed = false ∧
    out.phase = "blocked" ∧
    out.needsUserInput = true := by
  decide

/-- A fan-out has a failed worker exactly when the failed-worker filter is
nonempty. -/
theorem any_failed_iff_filter_pos (results : List Aggregator.AgentResult) :
    results.any (fun r => !r.success) = true ↔
      0 < (results.filter (fun r => !r.success)).length := by
  induction results with
  | nil => simp
  | cons r rs ih =>
    by_cases hr : r.success <;> simp [List.filter_cons, hr, ih]

/-- Success and failure counts of a fan-out partition its length. -/
theorem success_counts_partition (results : List Aggregator.AgentResult) :
    (results.filter (fun r => r.success)).length +
      (results.filter (fun r => !r.success)).length = results.length := by
  simpa using (List.length_eq_length_filter_add
    (l := results) (fun r => r.success)).symm

/-- `handlePartialSuccess` with the option enabled accepts exactly when
the success rate reaches `0.5`, and an accepted decision carries the
successful results with `partial: true` and the failed count. -/
theorem handlePartialSuccess_spec (results : List Aggregator.AgentResult)
    (hne : results ≠ []) :
    ((Aggregator.handlePartialSuccess true results).success = true ↔
      (0.5 : ℚ) ≤ ((results.filter (fun r => r.success)).length : ℚ) /
        (results.length : ℚ)) ∧
    ((0.5 : ℚ) ≤ ((results.filter (fun r => r.success)).length : ℚ) /
        (results.length : ℚ) →
      (Aggregator.handlePartialSuccess true results).results =
        results.filter (fun r => r.success) ∧
      (Aggregator.handlePartialSuccess true results).isPartial = true ∧
      (Aggregator.handlePartialSuccess true results).failedCount =
        (results.filter (fun r => !r.success)).length) := by
  have hn : 0 < results.length := List.length_pos.mpr hne
  have hnQ : (0 : ℚ) < (results.length : ℚ) := by exact_mod_cast hn
  by_cases hs : (results.filter (fun r => r.success)).length = 0
  · have hrate : ((results.filter (fun r => r.success)).length : ℚ) /
        (results.length : ℚ) = 0 := by
      rw [hs]; simp
    constructor
    · rw [hrate]
      simp [Aggregator.handlePartialSuccess, hs]
      norm_num
    · intro hge
      rw [hrate] at hge
      norm_num at hge
  · by_cases hge : (0.5 : ℚ) ≤ ((results.filter (fun r => r.success)).length : ℚ) /
        (results.length : ℚ)
    · constructor
      · simp [Aggregator.handlePartialSuccess, hs, hge]
      · intro _
        refine ⟨?_, ?_, ?_⟩ <;>
          simp [Aggregator.handlePartialSuccess, hs, hge]
    · constructor
      · simp [Aggregator.handlePartialSuccess, hs, hge]
      · intro h
        exact absurd h hge

/-- Claim C3: for a fan-out with at least one worker, a success rate at or
above `0.5` (the hard-coded value of the claimed `minSuccessRate`
default; the boundary case is included in `≤`) makes the aggregation
accept, apply exactly the successful workers' file outputs, and set the
milestone's `partialSuccess` flag precisely when some worker failed; a
rate strictly below `0.5` rejects entirely and signals rollback. -/
theorem aggregateMilestone_threshold (results : List Aggregator.AgentResult)
    (hne : results ≠ []) :
    ((0.5 : ℚ) ≤ ((results.filter (fun r => r.success)).length : ℚ) /
        (results.length : ℚ) →
      (Aggregator.aggregateMilestone true results).accepted = true ∧
      (Aggregator.aggregateMilestone true results).appliedFiles =
        (results.filter (fun r => r.success)).flatMap (fun r => r.files) ∧
      (Aggregator.aggregateMilestone true results).partialSuccess =
        results.any (fun r => !r.success) ∧
      (Aggregator.aggregateMilestone true results).shouldRollback = false) ∧
    (((results.filter (fun r => r.success)).length : ℚ) /
        (results.length : ℚ) < (0.5 : ℚ) →
      (Aggregator.aggregateMilestone true results).accepted = false ∧
      (Aggregator.aggregateMilestone true results).shouldRollback = true) := by
  have hn : 0 < results.length := List.length_pos.mpr hne
  have hnQ : (0 : ℚ) < (results.length : ℚ) := by exact_mod_cast hn
  have hspec := handlePartialSuccess_spec results hne
  by_cases hg : 0 < (results.filter (fun r => !r.success)).length
  · have hany : results.any (fun r => !r.success) = true :=
      (any_failed_iff_filter_pos results).mpr hg
    constructor
    · intro hge
      have hsucc := hspec.1.mpr hge
      simp [Aggregator.aggregateMilestone, hg, hsucc, hany]
    · intro hlt
      have hsucc : (Aggregator.handlePartialSuccess true results).success = false := by
        cases h : (Aggregator.handlePartialSuccess true results).success
        · rfl
        · exact absurd (hspec.1.mp h) (not_le.mpr hlt)
      simp [Aggregator.aggregateMilestone, hg, hsucc]
  · have hgz : (results.filter (fun r => !r.success)).length = 0 :=
      Nat.eq_zero_of_not_pos hg
    have hsn : (results.filter (fun r => r.success)).length = results.length := by
      have := success_counts_partition results
      omega
    have hany : results.any (fun r => !r.success) = false := by
      cases h : results.any fun r => !r.success
      · rfl
      · have := (any_failed_iff_filter_pos results).mp h
        omega
    constructor
    · intro _
      simp [Aggregator.aggregateMilestone, hgz, hany]
    · intro hlt
      exfalso
      rw [hsn, div_self (ne_of_gt hnQ)] at hlt
      norm_num at hlt

/-- Witness for the partial-acceptance theorem: the boundary fan-out
(success rate exactly `0.5`) is accepted with `partialSuccess = true`. -/
theorem aggregateMilestone_threshold_witness :
    (Aggregator.aggregateMilestone true boundaryFanout).accepted = true ∧
    (Aggregator.aggregateMilestone true boundaryFanout).partialSuccess = true ∧
    (Aggregator.aggregateMilestone true boundaryFanout).shouldRollback = false := by
  have h := aggregateMilestone_threshold boundaryFanout (by decide)
  have hge : (0.5 : ℚ) ≤
      ((boundaryFanout.filter (fun r => r.success)).length : ℚ) /
        (boundaryFanout.length : ℚ) := by
    have h2 : (boundaryFanout.filter (fun r => r.success)).length = 2 := by decide
    have h4 : boundaryFanout.length = 4 := by decide
    rw [h2, h4]
    norm_num
  obtain ⟨ha, _, hp, hr⟩ := h.1 hge
  refine ⟨ha, ?_, hr⟩
  rw [hp]
  decide

/-- Claim C6 (amended): in the langgraph `parallelImplementationNode`, the
accepted worker files are first written to the filesystem and only then
scanned (the scan, `detectConflicts`, checks merge-conflict markers in
the just-applied files); any conflict routes the milestone to blocked
with `needsUserInput` and no commit, and only a conflict-free milestone
is committed. -/
theorem conflict_scan_blocks_commit (fs : LGNode.FileSystem)
    (results : List Aggregator.AgentResult)
    (h : results.all (fun r => r.success) = true) :
    (LGNode.parallelImplementationNodeLG fs "implementing" results).fs =
      LGNode.applyWrites fs results ∧
    (LGNode.parallelImplementationNodeLG fs "implementing" results).conflicts =
      LGNode.detectConflicts (LGNode.applyWrites fs results)
        (LGNode.writePaths results) ∧
    ((LGNode.parallelImplementationNodeLG fs "implementing" results).conflicts ≠
        [] →
      (LGNode.parallelImplementationNodeLG fs "implementing"
        results).committed = false ∧
      (LGNode.parallelImplementationNodeLG fs "implementing" results).phase =
        "blocked" ∧
      (LGNode.parallelImplementationNodeLG fs "implementing"
        results).needsUserInput = true) ∧
    ((LGNode.parallelImplementationNodeLG fs "implementing" results).conflicts =
        [] →
      (LGNode.parallelImplementationNodeLG fs "implementing"
        results).committed = true) := by
  have hall := List.all_eq_true.mp h
  have hany : results.any (fun r => !r.success) = false := by
    cases hA : results.any fun r => !r.success
    · rfl
    · obtain ⟨r, hr, hfail⟩ := List.any_eq_true.mp hA
      rw [hall r hr] at hfail
      simp at hfail
  by_cases hC : LGNode.detectConflicts (LGNode.applyWrites fs results)
      (LGNode.writePaths results) = []
  · simp [LGNode.parallelImplementationNodeLG, hany, hC]
  · have hCe : (LGNode.detectConflicts (LGNode.applyWrites fs results)
        (LGNode.writePaths results)).isEmpty = false := by
      cases hE : (LGNode.detectConflicts (LGNode.applyWrites fs results)
          (LGNode.writePaths results)).isEmpty
      · rfl
      · exact absurd (List.isEmpty_iff.mp hE) hC
    simp [LGNode.parallelImplementationNodeLG, hany, hCe, hC]

/-- Witness for the amended conflict-scan theorem: one all-successful
worker whose output carries a marker — the node blocks without a commit,
with the file already written. -/
theorem conflict_scan_blocks_commit_witness :
    (LGNode.parallelImplementationNodeLG [] "implementing"
      markerWorker).committed = false ∧
    (LGNode.parallelImplementationNodeLG [] "implementing"
      markerWorker).phase = "blocked" := by
  have h := conflict_scan_blocks_commit [] markerWorker (by decide)
  have hc := h.2.2.1 (by rw [h.2.1]; decide)
  exact ⟨hc.1, hc.2.1⟩

/-- Claim C7: the session loop's event trace always follows the
checkpoint discipline (`GoodTrace`: every phase handler return is
immediately followed by a full checkpoint of the very same post-state,
and a shutdown checkpoint carries phase `interrupted` and terminates the
trace), a deadline found exceeded right after a phase produces exactly
that phase's regular checkpoint followed by the interrupted checkpoint
with nothing further started, and a met deadline lets the loop continue.
The deadline is only ever consulted between phases: by construction each
step's handler runs to completion before the check. -/
theorem sessionLoop_checkpoint_discipline (s : SessionLoop.Session)
    (steps : List ((SessionLoop.Session → SessionLoop.Session) × Nat)) :
    SessionLoop.GoodTrace (SessionLoop.runLoop s steps) ∧
    (∀ upd now rest, (upd s).timeoutAt < now →
      SessionLoop.runLoop s ((upd, now) :: rest) =
        [.ranPhase (upd s), .savedCheckpoint (upd s),
         .shutdownCheckpoint (SessionLoop.interruptedOf (upd s))]) ∧
    (∀ upd now rest, ¬ (upd s).timeoutAt < now →
      SessionLoop.runLoop s ((upd, now) :: rest) =
        .ranPhase (upd s) :: .savedCheckpoint (upd s) ::
          SessionLoop.runLoop (upd s) rest) := by
  refine ⟨?_, ?_, ?_⟩
  · induction steps generalizing s with
    | nil => exact SessionLoop.GoodTrace.nil
    | cons st rest ih =>
      obtain ⟨upd, now⟩ := st
      by_cases htm : (upd s).timeoutAt < now
      · simp only [SessionLoop.runLoop, htm, if_true]
        exact .step _ _ (.shutdown _ rfl)
      · simp only [SessionLoop.runLoop, htm, if_false]
        exact .step _ _ (ih (upd s))
  · intro upd now rest h
    simp [SessionLoop.runLoop, h]
  · intro upd now rest h
    simp [SessionLoop.runLoop, h]

/-- Witness for the session-loop theorem: a step finishing past the
deadline yields its regular checkpoint, then the interrupted checkpoint,
and nothing further. -/
theorem sessionLoop_checkpoint_discipline_witness :
    SessionLoop.runLoop loopWitnessSession [(loopWitnessUpd, 500)] =
      [.ranPhase (loopWitnessUpd loopWitnessSession),
       .savedCheckpoint (loopWitnessUpd loopWitnessSession),
       .shutdownCheckpoint
         (SessionLoop.interruptedOf (loopWitnessUpd loopWitnessSession))] :=
  (sessionLoop_checkpoint_discipline loopWitnessSession
    [(loopWitnessUpd, 500)]).2.1 loopWitnessUpd 500 [] (by decide)

/-- Claim C10 counterexample: a file whose two identical lines are
indented import statements.  Neither line starts with `import ` (both
start with spaces), yet `deduplicateImports` removes the second one,
because its condition trims the line before matching — so the function
does not remove *only* duplicates of lines starting with `import `. -/
theorem dedup_matches_trimmed_counterexample :
    Dedup.deduplicateImports ("  import x\n  import x".toList) =
      "  import x".toList ∧
    Dedup.deduplicateImports ("  import x\n  import x".toList) ≠
      "  import x\n  import x".toList ∧
    List.isPrefixOf "import ".toList "  import x".toList = false := by
  decide

/-- A session whose phase is one of the resumable mid-pipeline phases and
whose idea is present routes back to exactly that phase's node. -/
theorem routeAfterLoad_reenters (s : ResumeModel.LGSession)
    (hIdea : s.ideaId.isSome = true)
    (hmem : s.phase ∈
      (["planning", "implementing", "reviewing", "testing"] : List String)) :
    ResumeModel.routeAfterLoad s = s.phase := by
  have hnone : s.ideaId.isNone = false := by
    cases h : s.ideaId
    · rw [h] at hIdea
      simp at hIdea
    · rfl
  simp only [List.mem_cons, List.not_mem_nil, or_false] at hmem
  unfold ResumeModel.routeAfterLoad
  rcases hmem with h | h | h | h <;> rw [h, hnone] <;> decide

/-- Claim C8: resuming from a stored checkpoint returns the deserialized
session with `retryCount` reset to `0` and the deadline recomputed as
`now + budget`, every other persisted field carried over unchanged (the
structural equality with the updated checkpoint), and the router then
re-enters the state machine at the persisted phase for every resumable
mid-pipeline phase. -/
theorem resume_resets_and_reenters
    (store : List (String × ResumeModel.LGSession))
    (state cp : ResumeModel.LGSession) (sid : String) (now budget : Nat)
    (hsid : state.sessionId = some sid)
    (hstore : AssocMap.mget store sid = some cp)
    (hcpid : cp.sessionId = some sid) :
    (ResumeModel.loadStateNode store true now budget state).retryCount = 0 ∧
    (ResumeModel.loadStateNode store true now budget state).timeoutAt =
      now + budget ∧
    ResumeModel.loadStateNode store true now budget state =
      { cp with retryCount := 0, timeoutAt := now + budget } ∧
    (cp.ideaId.isSome = true →
      cp.phase ∈
        (["planning", "implementing", "reviewing", "testing"] : List String) →
      ResumeModel.routeAfterLoad
        (ResumeModel.loadStateNode store true now budget state) = cp.phase) := by
  have hload : ResumeModel.loadStateNode store true now budget state =
      { cp with sessionId := some sid, retryCount := 0,
                timeoutAt := now + budget } := by
    unfold ResumeModel.loadStateNode ResumeModel.loadCheckpoint
    rw [hsid]
    simp [hstore]
  have hload' : ResumeModel.loadStateNode store true now budget state =
      { cp with retryCount := 0, timeoutAt := now + budget } := by
    rw [hload, ← hcpid]
  refine ⟨by rw [hload'], by rw [hload'], hload', ?_⟩
  intro hIdea hmem
  rw [hload']
  exact routeAfterLoad_reenters _ hIdea hmem

/-- Witness for the resume theorem: a concrete checkpoint in the store is
resumed with `retryCount = 0`, a fresh deadline, and re-entry at its
persisted phase `implementing`. -/
theorem resume_resets_and_reenters_witness :
    (ResumeModel.loadStateNode [("session-42", resumeCp)] true 1000 60000
      baseSession).retryCount = 0 ∧
    (ResumeModel.loadStateNode [("session-42", resumeCp)] true 1000 60000
      baseSession).timeoutAt = 1000 + 60000 ∧
    ResumeModel.routeAfterLoad
      (ResumeModel.loadStateNode [("session-42", resumeCp)] true 1000 60000
        baseSession) = "implementing" := by
  have h := resume_resets_and_reenters [("session-42", resumeCp)] baseSession
    resumeCp "session-42" 1000 60000 rfl rfl rfl
  exact ⟨h.1, h.2.1, h.2.2.2 rfl (by decide)⟩

/-- Claim C9 counterexample: in the failover orchestrator variant a plan
with confidence `0.3` — below its `0.5` gate — only sets
`needsUserInput` and leaves the phase at `planning`; the graph's
unconditional `plan → parallel_implementation` edge still proceeds to the
implementation node, so the session does not route to `blocked`. -/
theorem lowConfidence_proceeds_005_counterexample :
    (ResumeModel.planNodeUpdate005 baseSession lowPlan).needsUserInput =
      true ∧
    (ResumeModel.planNodeUpdate005 baseSession lowPlan).phase = "planning" ∧
    (ResumeModel.planNodeUpdate005 baseSession lowPlan).phase ≠ "blocked" ∧
    ResumeModel.nextNode005 "plan" = some "parallel_implementation" := by
  refine ⟨?_, ?_, ?_, rfl⟩
  · simp only [ResumeModel.planNodeUpdate005, lowPlan, decide_eq_true_eq]
    norm_num
  · simp only [ResumeModel.planNodeUpdate005, lowPlan]
    rw [if_neg (by norm_num)]
  · simp only [ResumeModel.planNodeUpdate005, lowPlan]
    rw [if_neg (by norm_num)]
    decide

/-- Claim C9 (amended): in the langgraph orchestrator a produced plan
below the `0.8` confidence gate routes to human clarification (which
marks the session `blocked`), and a plan at or above the gate routes to
`parallel_implementation` with phase `implementing`; in the failover
variant the `0.5` gate only sets `needsUserInput` and keeps the phase at
`planning`, while the unconditional graph edge proceeds to the
implementation node regardless. -/
theorem planConfidence_gate (state : ResumeModel.LGSession)
    (plan : ResumeModel.Plan) :
    (plan.confidence < (0.8 : ℚ) →
      ResumeModel.routeAfterPlan (ResumeModel.planNodeUpdate state plan) =
        "human_clarification" ∧
      (ResumeModel.humanClarificationUpdate
        (ResumeModel.planNodeUpdate state plan)).phase = "blocked") ∧
    ((0.8 : ℚ) ≤ plan.confidence →
      ResumeModel.routeAfterPlan (ResumeModel.planNodeUpdate state plan) =
        "parallel_implementation" ∧
      (ResumeModel.planNodeUpdate state plan).phase = "implementing") ∧
    (plan.confidence < (0.5 : ℚ) →
      (ResumeModel.planNodeUpdate005 state plan).needsUserInput = true ∧
      (ResumeModel.planNodeUpdate005 state plan).phase = "planning" ∧
      ResumeModel.nextNode005 "plan" = some "parallel_implementation") := by
  refine ⟨?_, ?_, ?_⟩
  · intro hlt
    have hnge : ¬ (0.8 : ℚ) ≤ plan.confidence := not_le.mpr hlt
    constructor
    · simp [ResumeModel.routeAfterPlan, ResumeModel.planNodeUpdate, hlt, hnge]
    · rfl
  · intro hge
    have hnlt : ¬ plan.confidence < (0.8 : ℚ) := not_lt.mpr hge
    constructor
    · simp [ResumeModel.routeAfterPlan, ResumeModel.planNodeUpdate, hge, hnlt]
    · simp [ResumeModel.planNodeUpdate, hge]
  · intro hlt5
    have hnge5 : ¬ (0.5 : ℚ) ≤ plan.confidence := not_le.mpr hlt5
    refine ⟨?_, ?_, rfl⟩
    · simp [ResumeModel.planNodeUpdate005, hlt5]
    · simp [ResumeModel.planNodeUpdate005, hnge5]

/-- Witness for the plan-confidence theorem: the low-confidence plan
routes to human clarification, the high-confidence plan to the parallel
implementation. -/
theorem planConfidence_gate_witness :
    ResumeModel.routeAfterPlan
      (ResumeModel.planNodeUpdate baseSession lowPlan) =
      "human_clarification" ∧
    ResumeModel.routeAfterPlan
      (ResumeModel.planNodeUpdate baseSession highPlan) =
      "parallel_implementation" :=
  ⟨((planConfidence_gate baseSession lowPlan).1 (by norm_num [lowPlan])).1,
   ((planConfidence_gate baseSession highPlan).2.1
     (by norm_num [highPlan])).1⟩

/-- `splitNL` never returns an empty list of lines. -/
theorem splitNL_ne_nil (s : List Char) : Dedup.splitNL s ≠ [] := by
  induction s with
  | nil => simp [Dedup.splitNL]
  | cons c rest _ =>
    by_cases hc : c = '\n'
    · simp [Dedup.splitNL, hc]
    · cases hsp : Dedup.splitNL rest with
      | nil => simp [Dedup.splitNL, hc, hsp]
      | cons l ls => simp [Dedup.splitNL, hc, hsp]

/-- Every line produced by `splitNL` is newline-free. -/
theorem noNL_splitNL (s : List Char) :
    ∀ l ∈ Dedup.splitNL s, '\n' ∉ l := by
  induction s with
  | nil =>
    intro l hl
    simp [Dedup.splitNL] at hl
    simp [hl]
  | cons c rest ih =>
    intro l hl
    by_cases hc : c = '\n'
    · simp only [Dedup.splitNL, hc, if_true] at hl
      rcases List.mem_cons.mp hl with rfl | hl2
      · simp
      · exact ih l hl2
    · obtain ⟨x, xs, hsp⟩ : ∃ x xs, Dedup.splitNL rest = x :: xs := by
        cases hsp : Dedup.splitNL rest with
        | nil => exact absurd hsp (splitNL_ne_nil rest)
        | cons x xs => exact ⟨x, xs, rfl⟩
      simp only [Dedup.splitNL, hc, if_false, hsp] at hl
      rcases List.mem_cons.mp hl with rfl | hl2
      · intro hmem
        rcases List.mem_cons.mp hmem with h | h
        · exact hc h.symm
        · exact ih x (by rw [hsp]; exact List.mem_cons_self x xs) h
      · exact ih l (by rw [hsp]; exact List.mem_cons_of_mem x hl2)

/-- `splitNL` of a newline-free line is that single line. -/
theorem splitNL_noNL (l : List Char) (h : '\n' ∉ l) :
    Dedup.splitNL l = [l] := by
  induction l with
  | nil => rfl
  | cons c rest ih =>
    have hc : ¬ c = '\n' := fun hcc => h (by rw [hcc]; exact List.mem_cons_self _ _)
    have hrest : '\n' ∉ rest := fun hm => h (List.mem_cons_of_mem c hm)
    simp [Dedup.splitNL, hc, ih hrest]

/-- Splitting a newline-free line glued to a tail by a newline peels off
exactly that line. -/
theorem splitNL_append (l t : List Char) (h : '\n' ∉ l) :
    Dedup.splitNL (l ++ '\n' :: t) = l :: Dedup.splitNL t := by
  induction l with
  | nil => simp [Dedup.splitNL]
  | cons c rest ih =>
    have hc : ¬ c = '\n' := fun hcc => h (by rw [hcc]; exact List.mem_cons_self _ _)
    have hrest : '\n' ∉ rest := fun hm => h (List.mem_cons_of_mem c hm)
    simp [Dedup.splitNL, hc, ih hrest]

/-- `splitNL` inverts `joinNL` on nonempty lists of newline-free lines. -/
theorem splitNL_joinNL : ∀ (ls : List (List Char)), ls ≠ [] →
    (∀ l ∈ ls, '\n' ∉ l) → Dedup.splitNL (Dedup.joinNL ls) = ls := by
  intro ls
  induction ls with
  | nil => intro hne _; exact absurd rfl hne
  | cons l rest ih =>
    intro _ h
    cases rest with
    | nil =>
      have : Dedup.joinNL [l] = l := rfl
      rw [this, splitNL_noNL l (h l (List.mem_cons_self _ _))]
    | cons l2 r2 =>
      have hl : '\n' ∉ l := h l (List.mem_cons_self _ _)
      have hrest : ∀ x ∈ l2 :: r2, '\n' ∉ x :=
        fun x hx => h x (List.mem_cons_of_mem _ hx)
      have hjoin : Dedup.joinNL (l :: l2 :: r2) =
          l ++ '\n' :: Dedup.joinNL (l2 :: r2) := rfl
      rw [hjoin, splitNL_append _ _ hl, ih (by simp) hrest]

/-- The dedup loop keeps a subsequence of its input lines. -/
theorem dedupeGo_sublist : ∀ (xs seen : List (List Char)),
    (Dedup.dedupeGo seen xs).Sublist xs := by
  intro xs
  induction xs with
  | nil => intro seen; simp [Dedup.dedupeGo]
  | cons x rest ih =>
    intro seen
    cases hx : Dedup.isImportLine x with
    | true =>
      cases hc : seen.contains x with
      | true =>
        simp only [Dedup.dedupeGo, hx, hc, if_true]
        exact (ih seen).trans (List.sublist_cons_self x rest)
      | false =>
        simp only [Dedup.dedupeGo, hx, hc, if_true, Bool.false_eq_true,
          if_false]
        exact (ih (x :: seen)).cons₂ x
    | false =>
      simp only [Dedup.dedupeGo, hx, Bool.false_eq_true, if_false]
      exact (ih seen).cons₂ x

/-- Line-count characterization of the dedup loop: an import line already
seen disappears, an unseen import line survives exactly once when present,
every other line keeps its multiplicity. -/
theorem dedupeGo_count (l : List Char) : ∀ (xs seen : List (List Char)),
    (Dedup.dedupeGo seen xs).count l =
      if Dedup.isImportLine l = true then
        (if l ∈ seen then 0 else min 1 (xs.count l))
      else xs.count l := by
  intro xs
  induction xs with
  | nil =>
    intro seen
    simp only [Dedup.dedupeGo, List.count_nil]
    split
    · split
      · rfl
      · simp
    · rfl
  | cons x rest ih =>
    intro seen
    cases hx : Dedup.isImportLine x with
    | true =>
      by_cases hseen : x ∈ seen
      · have hc : seen.contains x = true := by simpa using hseen
        simp only [Dedup.dedupeGo, hx, hc, if_true]
        rw [ih seen]
        by_cases hl : l = x
        · subst hl
          simp [hx, hseen]
        · rw [List.count_cons_of_ne hl]
      · have hc : seen.contains x = false := by simpa using hseen
        simp only [Dedup.dedupeGo, hx, hc, if_true, Bool.false_eq_true,
          if_false]
        rw [List.count_cons, ih (x :: seen)]
        by_cases hl : l = x
        · subst hl
          simp [hx, hseen, List.count_cons_self]
        · have hbx : (x == l) = false := by
            simp [Ne.symm hl]
          rw [List.count_cons_of_ne hl, hbx]
          simp [List.mem_cons, hl]
    | false =>
      simp only [Dedup.dedupeGo, hx, Bool.false_eq_true, if_false]
      rw [List.count_cons, ih seen, List.count_cons]
      by_cases hl : l = x
      · subst hl
        simp [hx]
      · have hbx : (x == l) = false := by
          simp [Ne.symm hl]
        rw [hbx]
        simp

/-- The dedup loop is idempotent for any seen set. -/
theorem dedupeGo_idem : ∀ (xs seen : List (List Char)),
    Dedup.dedupeGo seen (Dedup.dedupeGo seen xs) = Dedup.dedupeGo seen xs := by
  intro xs
  induction xs with
  | nil => intro seen; simp [Dedup.dedupeGo]
  | cons x rest ih =>
    intro seen
    cases hx : Dedup.isImportLine x with
    | true =>
      cases hc : seen.contains x with
      | true =>
        simp only [Dedup.dedupeGo, hx, hc, if_true]
        exact ih seen
      | false =>
        simp only [Dedup.dedupeGo, hx, hc, if_true, Bool.false_eq_true,
          if_false]
        rw [ih (x :: seen)]
    | false =>
      simp only [Dedup.dedupeGo, hx, Bool.false_eq_true, if_false]
      rw [ih seen]

/-- The dedup loop started from an empty seen set keeps at least the
first line. -/
theorem dedupeGo_ne_nil (xs : List (List Char)) (h : xs ≠ []) :
    Dedup.dedupeGo [] xs ≠ [] := by
  cases xs with
  | nil => exact absurd rfl h
  | cons x rest =>
    cases hx : Dedup.isImportLine x with
    | true => simp [Dedup.dedupeGo, hx]
    | false => simp [Dedup.dedupeGo, hx]

/-- Claim C10 (amended): `deduplicateImports` keeps a subsequence of the
original lines (so the relative order of all kept lines is preserved); a
line whose *trimmed* form starts with `import ` survives exactly once
when it occurred at all — only later exact character-for-character
duplicates of an earlier such line are removed — while every other line
keeps its full multiplicity; and the function is idempotent on whole
file contents. -/
theorem deduplicateImports_spec (content : List Char) :
    (Dedup.dedupeGo [] (Dedup.splitNL content)).Sublist
      (Dedup.splitNL content) ∧
    (∀ l, (Dedup.dedupeGo [] (Dedup.splitNL content)).count l =
      if Dedup.isImportLine l = true then
        min 1 ((Dedup.splitNL content).count l)
      else (Dedup.splitNL content).count l) ∧
    Dedup.deduplicateImports (Dedup.deduplicateImports content) =
      Dedup.deduplicateImports content := by
  refine ⟨dedupeGo_sublist _ _, ?_, ?_⟩
  · intro l
    have h := dedupeGo_count l (Dedup.splitNL content) []
    simpa using h
  · unfold Dedup.deduplicateImports
    have hnn : ∀ l ∈ Dedup.dedupeGo [] (Dedup.splitNL content), '\n' ∉ l :=
      fun l hl => noNL_splitNL content l
        ((dedupeGo_sublist (Dedup.splitNL content) []).subset hl)
    have hne : Dedup.dedupeGo [] (Dedup.splitNL content) ≠ [] :=
      dedupeGo_ne_nil _ (splitNL_ne_nil content)
    rw [splitNL_joinNL _ hne hnn, dedupeGo_idem]
